import Mathlib

/-!
Verification of the `bitumen` archive codec.

Shallow embedding of the Rust sources:
  * `src/crc32.rs`  — the checksum engine (`digest`)
  * `src/flags.rs`  — the flag constants
  * `src/lib.rs`    — the metadata record, encoder (`append_to_archive`,
    `recursive_archive`) and decoder (`read_meta`, `read1`, `read`)

Machine integers are modelled as `Nat` with explicit reduction modulo `2^w`
where the Rust types (`u8`/`u16`/`u32`/`u64`) truncate.  Byte streams are
`List Nat` (each element one byte).
-/

namespace Bitumen

/-! ## Checksum engine (`src/crc32.rs`) -/

/-- `const POLYNOMIAL: u32 = 0x04C11DB7` -/
def POLYNOMIAL : Nat := 0x04C11DB7

/-- Bit reversal: `revAux n x acc` folds the `n` low bits of `x`,
least-significant first, onto `acc`.  `u8::reverse_bits` is `revAux 8 x 0`
and `u32::reverse_bits` is `revAux 32 x 0`. -/
def revAux : Nat → Nat → Nat → Nat
  | 0, _, acc => acc
  | n + 1, x, acc => revAux n (x / 2) (2 * acc + x % 2)

/-- `u8::reverse_bits` (`byte.reverse_bits()` in `digest`). -/
def rev8 (x : Nat) : Nat := revAux 8 x 0

/-- `u32::reverse_bits` (`crc.reverse_bits()` in `digest`). -/
def rev32 (x : Nat) : Nat := revAux 32 x 0

/-- One iteration of the inner loop of `digest`:
`if crc & (1 << 31) > 0 { crc = (crc << 1) ^ POLYNOMIAL } else { crc = crc << 1 }`
with `u32` wrap-around on the shift. -/
def crcStep (crc : Nat) : Nat :=
  if crc &&& (1 <<< 31) > 0 then ((crc <<< 1) % 2 ^ 32) ^^^ POLYNOMIAL
  else (crc <<< 1) % 2 ^ 32

/-- Body of the outer loop of `digest` for a single input byte:
`crc = crc ^ ((byte.reverse_bits() as u32) << 24)` followed by eight
iterations of `crcStep`. -/
def crcByteStep (crc byte : Nat) : Nat :=
  crcStep^[8] (crc ^^^ (rev8 byte <<< 24))

/-- `pub fn digest(bytes: &[u8]) -> u32` from `src/crc32.rs`:
start from `!0`, fold every byte through the loop, finally
return `!crc.reverse_bits()` (complement is xor with `2^32 - 1`). -/
def digest (bytes : List Nat) : Nat :=
  rev32 (bytes.foldl crcByteStep (2 ^ 32 - 1)) ^^^ (2 ^ 32 - 1)

/-! ## Flags (`src/flags.rs`) -/

namespace flags

/-- `pub const FILE: u32 = 0x0` -/
def FILE : Nat := 0x0
/-- `pub const DIR: u32 = 0x1` -/
def DIR : Nat := 0x1
/-- `pub const SOFT_LINK: u32 = 0x2` -/
def SOFT_LINK : Nat := 0x2
/-- `pub const HARD_LINK: u32 = 0x3` -/
def HARD_LINK : Nat := 0x3
/-- `pub const HEADER: u32 = 0x8` -/
def HEADER : Nat := 0x8

end flags

/-! ## Metadata record (`src/lib.rs`) -/

/-- `const MAGIC: u32 = 0x2f_96_8b_6a` -/
def MAGIC : Nat := 0x2f968b6a

/-- The `#[repr(C)] struct Metadata` of `src/lib.rs`.  Field values are
`Nat`; the Rust field widths (`u64`/`u16`/`u32`) are enforced by explicit
`% 2^w` reductions at the points where Rust truncates. -/
structure Metadata where
  modified_at : Nat
  file_size : Nat
  path_len : Nat
  perms : Nat
  owner : Nat
  group : Nat
  magic : Nat
  flags : Nat
  checksum : Nat
  deriving Repr, DecidableEq

/-- Little-endian serialization of a 16-bit field. -/
def le2 (x : Nat) : List Nat := [x % 256, x / 256 % 256]

/-- Little-endian serialization of a 32-bit field. -/
def le4 (x : Nat) : List Nat :=
  [x % 256, x / 256 % 256, x / 256 ^ 2 % 256, x / 256 ^ 3 % 256]

/-- Little-endian serialization of a 64-bit field. -/
def le8 (x : Nat) : List Nat :=
  [x % 256, x / 256 % 256, x / 256 ^ 2 % 256, x / 256 ^ 3 % 256,
   x / 256 ^ 4 % 256, x / 256 ^ 5 % 256, x / 256 ^ 6 % 256, x / 256 ^ 7 % 256]

/-- Little-endian reassembly of a byte list into a number. -/
def deLE : List Nat → Nat
  | [] => 0
  | b :: bs => b + 256 * deLE bs

/-- `Metadata::as_bytes_without_checksum`: the raw bytes of the record from
its start up to (excluding) the `checksum` field — with `#[repr(C)]` layout
on x86-64 these are the 32 bytes of the fields
`modified_at, file_size, path_len, perms, owner, group, magic, flags`
in order, little-endian. -/
def Metadata.as_bytes_without_checksum (m : Metadata) : List Nat :=
  le8 m.modified_at ++ le8 m.file_size ++ le2 m.path_len ++ le2 m.perms ++
    le2 m.owner ++ le2 m.group ++ le4 m.magic ++ le4 m.flags

/-- `Metadata::as_bytes`: all `size_of::<Metadata>() = 40` bytes of the
record: the 32 checksummed bytes, the 4-byte `checksum` field, and the
4 bytes of `#[repr(C)]` tail padding (alignment 8 rounds 36 up to 40). -/
def Metadata.as_bytes (m : Metadata) : List Nat :=
  m.as_bytes_without_checksum ++ le4 m.checksum ++ [0, 0, 0, 0]

/-- `Metadata::compute_checksum`. -/
def Metadata.compute_checksum (m : Metadata) : Nat :=
  digest m.as_bytes_without_checksum

/-- `Metadata::set_checksum`. -/
def Metadata.set_checksum (m : Metadata) : Metadata :=
  { m with checksum := m.compute_checksum }

/-- `Metadata::check`: `Ok` iff the `magic` field equals `MAGIC`. -/
def Metadata.check (m : Metadata) : Bool := m.magic == MAGIC

/-- `Metadata::kind`: the two low bits of `flags` select the label; the
Rust `unreachable!()` arm is modelled by the impossible-to-report label
`"unreachable"`. -/
def Metadata.kind (m : Metadata) : String :=
  match m.flags &&& 3 with
  | 0 => "File"
  | 1 => "Directory"
  | 2 => "Soft Link"
  | 3 => "Hard Link"
  | _ => "unreachable"

/-! ## Filesystem model and encoder (`src/lib.rs`) -/

/-- A filesystem subtree: the objects `append_to_archive` can handle
(regular files and directories; anything else hits the Rust `todo!`).
A file carries its contents, a directory its children in the order
`read_dir` yields them (the "order of discovery"). -/
inductive FsTree where
  | file (name : List Nat) (modified : Nat) (body : List Nat) : FsTree
  | dir (name : List Nat) (modified : Nat) (children : List FsTree) : FsTree

/-- Last path component of the object (used by `entry.path()` joining). -/
def FsTree.name : FsTree → List Nat
  | .file n _ _ => n
  | .dir n _ _ => n

/-- `path.is_dir()` for the object. -/
def FsTree.isDir : FsTree → Bool
  | .file _ _ _ => false
  | .dir _ _ _ => true

/-- `modified().duration_since(UNIX_EPOCH).as_secs()` for the object. -/
def FsTree.modified : FsTree → Nat
  | .file _ m _ => m
  | .dir _ m _ => m

/-- The body written for the object: the file contents for a file
(`io::copy`), nothing for a directory. -/
def FsTree.body : FsTree → List Nat
  | .file _ _ b => b
  | .dir _ _ _ => []

/-- The `Metadata` value built by `append_to_archive` before the
header/footer split: `path_len` is `path_str.len() as u16` (truncating
cast), `file_size` is the file length (0 for a directory), `flags` is
`flags::FILE` or `flags::DIR`, and the checksum is left 0. -/
def entryMeta (path : List Nat) (t : FsTree) : Metadata :=
  { modified_at := t.modified
    file_size := t.body.length
    path_len := path.length % 2 ^ 16
    perms := 0
    owner := 0
    group := 0
    magic := MAGIC
    flags := if t.isDir then flags.DIR else flags.FILE
    checksum := 0 }

/-- `pub fn append_to_archive`: build the metadata, derive header
(`flags |= HEADER`, checksum set) and footer (checksum set) records, and
write header bytes, path bytes, body bytes (files only), footer bytes. -/
def append_to_archive (path : List Nat) (t : FsTree) : List Nat :=
  let meta := entryMeta path t
  let header_meta := Metadata.set_checksum { meta with flags := meta.flags ||| flags.HEADER }
  let footer_meta := Metadata.set_checksum meta
  header_meta.as_bytes ++ path ++ t.body ++ footer_meta.as_bytes

mutual

/-- The inner `find` of `recursive_archive`: push the current path, then
recurse into the children when the object is a directory.  Each entry is
the visited object's full path paired with the object. -/
def find (p : List Nat) (t : FsTree) : List (List Nat × FsTree) :=
  (p, t) :: (match t with
    | .file _ _ _ => []
    | .dir _ _ cs => findChildren p cs)

/-- Traversal of a directory's children in discovery order; a child named
`n` under directory path `p` has full path `p ++ "/" ++ n` (byte 47). -/
def findChildren (p : List Nat) : List FsTree → List (List Nat × FsTree)
  | [] => []
  | c :: cs => find (p ++ [47] ++ c.name) c ++ findChildren p cs

end

/-- `pub fn recursive_archive`: collect all entries with `find`, then
append every directory entry (discovery order) and afterwards every
non-directory entry (discovery order). -/
def recursive_archive (rootPath : List Nat) (root : FsTree) : List Nat :=
  let entries := find rootPath root
  (((entries.filter fun e => e.2.isDir).map fun e => append_to_archive e.1 e.2).flatten)
    ++ (((entries.filter fun e => !e.2.isDir).map fun e => append_to_archive e.1 e.2).flatten)

/-! ## Decoder (`src/lib.rs`) -/

/-- `enum DecodeError` from `src/lib.rs`. -/
inductive DecodeError where
  /-- no further entries -/
  | Exhausted
  /-- Generic Header Error -/
  | Header
  /-- Generic Footer Error -/
  | Footer
  /-- Faulty checksum -/
  | Checksum
  /-- Cut off mid-file -/
  | Crop
  deriving Repr, DecidableEq

/-- The `read_exact` of 40 bytes plus `transmute::<_, Metadata>` in
`read_meta`: `none` models the failed `read_exact`.  The 40 bytes are
interpreted at the `#[repr(C)]` offsets: `modified_at` at 0, `file_size`
at 8, `path_len` at 16, `perms` at 18, `owner` at 20, `group` at 22,
`magic` at 24, `flags` at 28, `checksum` at 32, tail padding at 36,
each field little-endian. -/
def parseMeta : List Nat → Option (Metadata × List Nat)
  | a0 :: a1 :: a2 :: a3 :: a4 :: a5 :: a6 :: a7 ::
    b0 :: b1 :: b2 :: b3 :: b4 :: b5 :: b6 :: b7 ::
    c0 :: c1 :: d0 :: d1 :: e0 :: e1 :: f0 :: f1 ::
    g0 :: g1 :: g2 :: g3 :: h0 :: h1 :: h2 :: h3 ::
    i0 :: i1 :: i2 :: i3 :: _p0 :: _p1 :: _p2 :: _p3 :: rest =>
    some
      ({ modified_at := deLE [a0, a1, a2, a3, a4, a5, a6, a7]
         file_size := deLE [b0, b1, b2, b3, b4, b5, b6, b7]
         path_len := deLE [c0, c1]
         perms := deLE [d0, d1]
         owner := deLE [e0, e1]
         group := deLE [f0, f1]
         magic := deLE [g0, g1, g2, g3]
         flags := deLE [h0, h1, h2, h3]
         checksum := deLE [i0, i1, i2, i3] }, rest)
  | _ => none

/-- `fn read_meta`: a failed `read_exact` yields `Exhausted`; a failed
`meta.check()` yields `DecodeError::Header` — whatever `name` says, the
name reaches only the log message. -/
def read_meta (name : String) (archive : List Nat) :
    Except DecodeError (Metadata × List Nat) :=
  match parseMeta archive with
  | none => .error .Exhausted
  | some (meta, rest) =>
    if meta.check then .ok (meta, rest) else .error .Header

/-- `read_exact` into a buffer of `n` bytes. -/
def readExact (n : Nat) (bs : List Nat) : Option (List Nat × List Nat) :=
  if bs.length < n then none else some (bs.take n, bs.drop n)

/-- `archive.seek(SeekFrom::Current(file_size as _))`, forward fragment:
for `file_size < 2^63` the `i64` offset is non-negative and the seek
never fails (seeking past end-of-stream is legal).  A `file_size ≥ 2^63`
is a negative offset — a backward seek into already-consumed bytes,
which this suffix-consumption representation cannot express; it is
modelled in full by `seekCurrent`/`read1_at` below, and every theorem
stated over `read1` confines itself to the forward regime through an
explicit `< 2^63` hypothesis. -/
def seekPast (n : Nat) (bs : List Nat) : Option (List Nat) :=
  if n < 2 ^ 63 then some (bs.drop n) else none

/-- What `read1` reports on success (the `log::info!` line):
kind label, path bytes, and size.  (The Rust code renders the path with
`String::from_utf8_lossy`; the raw bytes are kept here, and equal bytes
render to equal text.) -/
structure Report where
  kind : String
  path : List Nat
  size : Nat
  deriving Repr, DecidableEq

/-- `fn read1`: read and check a header, read `path_len` path bytes
(short read is `Crop`), seek past `file_size` body bytes (failure is
`Crop`), read and check a footer, and report kind/path/size. -/
def read1 (archive : List Nat) : Except DecodeError (Report × List Nat) :=
  match read_meta "Header" archive with
  | .error e => .error e
  | .ok (header, s1) =>
    match readExact header.path_len s1 with
    | none => .error .Crop
    | some (path, s2) =>
      match seekPast header.file_size s2 with
      | none => .error .Crop
      | some s3 =>
        match read_meta "Footer" s3 with
        | .error e => .error e
        | .ok (_footer, s4) =>
          .ok ({ kind := header.kind, path := path, size := header.file_size }, s4)

/-- `pub fn read`: `while let Ok(..) = read1(archive) {}` — the sequence
of reports produced until the first non-success outcome.  Termination:
a successful `read1` consumed at least its two 40-byte records, so the
stream strictly shrinks (shown inline below). -/
def read (archive : List Nat) : List Report :=
  match h : read1 archive with
  | .error _ => []
  | .ok (r, rest) => r :: read rest
termination_by archive.length
decreasing_by
  unfold read1 at h
  split at h
  · exact absurd h (by simp)
  · rename_i header s1 hmeta
    split at h
    · exact absurd h (by simp)
    · rename_i path s2 hexact
      split at h
      · exact absurd h (by simp)
      · rename_i s3 hseek
        split at h
        · exact absurd h (by simp)
        · rename_i footer s4 hfoot
          simp only [Except.ok.injEq, Prod.mk.injEq] at h
          have hparse : ∀ (bs rest' : List Nat) (m : Metadata),
              parseMeta bs = some (m, rest') → rest'.length + 40 = bs.length := by
            intro bs rest' m hp
            unfold parseMeta at hp
            split at hp
            · simp only [Option.some.injEq, Prod.mk.injEq] at hp
              rw [← hp.2]
              simp only [List.length_cons]
            · exact absurd hp (by simp)
          have hmetaLen : ∀ (n : String) (bs rest' : List Nat) (m : Metadata),
              read_meta n bs = .ok (m, rest') → rest'.length + 40 = bs.length := by
            intro n bs rest' m hr
            unfold read_meta at hr
            split at hr
            · exact absurd hr (by simp)
            · rename_i m' rest'' heq
              split at hr
              · simp only [Except.ok.injEq, Prod.mk.injEq] at hr
                rw [← hr.2]
                exact hparse _ _ _ heq
              · exact absurd hr (by simp)
          have h1 := hmetaLen _ _ _ _ hmeta
          have h4 := hmetaLen _ _ _ _ hfoot
          have h2 : s2.length ≤ s1.length := by
            unfold readExact at hexact
            split at hexact
            · exact absurd hexact (by simp)
            · simp only [Option.some.injEq, Prod.mk.injEq] at hexact
              rw [← hexact.2]
              simp [List.length_drop]
          have h3 : s3.length ≤ s2.length := by
            unfold seekPast at hseek
            split at hseek
            · simp only [Option.some.injEq] at hseek
              rw [← hseek]
              simp [List.length_drop]
            · exact absurd hseek (by simp)
          rw [h.2] at h4
          omega

/-! ## The decoder over a seekable stream (buffer + position)

`read1` above consumes a suffix of the stream, which is exact while every
seek moves forward.  The source's `seek(SeekFrom::Current(file_size as _))`
casts the `u64` to an `i64`, so a stream-supplied `file_size ≥ 2^63` is a
*negative* offset: the decoder seeks backward into bytes it has already
read.  The definitions below embed the same `read_meta`/`read1` over the
representation that can express this: the full buffer plus the current
position. -/

/-- `archive.seek(SeekFrom::Current(file_size as _))` in full: for
`file_size < 2^63` the offset is `file_size` forward; otherwise the
`u64 → i64` cast makes it the negative offset `file_size - 2^64`, and
the seek succeeds exactly when it does not move before the start of the
stream. -/
def seekCurrent (file_size pos : Nat) : Option Nat :=
  if file_size < 2 ^ 63 then some (pos + file_size)
  else if 2 ^ 64 - file_size ≤ pos then some (pos - (2 ^ 64 - file_size))
  else none

/-- `fn read_meta` over buffer + position: read 40 bytes at `pos`,
`transmute`, check the magic; `name` reaches only the log line. -/
def read_meta_at (name : String) (buf : List Nat) (pos : Nat) :
    Except DecodeError (Metadata × Nat) :=
  match parseMeta (buf.drop pos) with
  | none => .error .Exhausted
  | some (meta, _) => if meta.check then .ok (meta, pos + 40) else .error .Header

/-- `read_exact` of `n` bytes at `pos` over buffer + position. -/
def readExact_at (n : Nat) (buf : List Nat) (pos : Nat) :
    Option (List Nat × Nat) :=
  if buf.length < pos + n then none else some ((buf.drop pos).take n, pos + n)

/-- `fn read1` over buffer + position, with the seek modelled in full by
`seekCurrent`: faithful also when `file_size ≥ 2^63` makes the decoder
re-read bytes it has already passed. -/
def read1_at (buf : List Nat) (pos : Nat) : Except DecodeError (Report × Nat) :=
  match read_meta_at "Header" buf pos with
  | .error e => .error e
  | .ok (header, p1) =>
    match readExact_at header.path_len buf p1 with
    | none => .error .Crop
    | some (path, p2) =>
      match seekCurrent header.file_size p2 with
      | none => .error .Crop
      | some p3 =>
        match read_meta_at "Footer" buf p3 with
        | .error e => .error e
        | .ok (_footer, p4) =>
          .ok ({ kind := header.kind, path := path, size := header.file_size }, p4)

/-! ## Auxiliary definitions used by the statements -/

/-- The field-wise truncation a serialize/parse round trip performs:
every field reduced to its Rust machine width. -/
def reduceMeta (m : Metadata) : Metadata :=
  { modified_at := m.modified_at % 2 ^ 64
    file_size := m.file_size % 2 ^ 64
    path_len := m.path_len % 2 ^ 16
    perms := m.perms % 2 ^ 16
    owner := m.owner % 2 ^ 16
    group := m.group % 2 ^ 16
    magic := m.magic % 2 ^ 32
    flags := m.flags % 2 ^ 32
    checksum := m.checksum % 2 ^ 32 }

/-- Physically realizable entry: the full path fits the 16-bit length
field and the body fits a non-negative `i64` (true of any real file). -/
def wfEntryB (e : List Nat × FsTree) : Bool :=
  decide (e.1.length < 2 ^ 16) && decide (e.2.body.length < 2 ^ 63)

/-- A small concrete subtree: a directory `"r"` holding one 2-byte file
`"a"`. -/
def sampleTree : FsTree := .dir [114] 5 [.file [97] 6 [1, 2]]

/-- A header record with valid magic, header bit set, and no path or
body bytes. -/
def goodHeader : Metadata :=
  { modified_at := 0, file_size := 0, path_len := 0, perms := 0, owner := 0,
    group := 0, magic := MAGIC, flags := flags.HEADER, checksum := 0 }

/-- A 40-byte record whose magic field is wrong (zero). -/
def badMagicFooter : Metadata :=
  { goodHeader with magic := 0, flags := 0 }

/-- A header whose `file_size`, cast to `i64` by the decoder's seek, is
`-32`: after the 40-byte header and the empty path the decoder seeks 32
bytes *backward*, to offset 8, and reads its "footer" record there — the
magic field of that record falls on this header's own checksum bytes
(stream offsets 32..36).  The checksum field is set to `MAGIC` so that
backward-read record validates. -/
def wrapHeader : Metadata :=
  { modified_at := 0, file_size := 2 ^ 64 - 32, path_len := 0, perms := 0,
    owner := 0, group := 0, magic := MAGIC, flags := flags.HEADER,
    checksum := MAGIC }

/-- `wrapHeader` with its checksum field zeroed — the only difference. -/
def wrapHeader0 : Metadata := { wrapHeader with checksum := 0 }

/-- Modelled from the spec: "the widely used CRC-32 algorithm (normal-form
polynomial 0x04C11DB7, bit-reversed input and output, initial register all
one-bits, final value complemented)" — an MSB-first shift register with
the normal-form polynomial, each input byte bit-reversed before entering
the register's top byte, the register starting as all one-bits, and the
final register bit-reversed and complemented. -/
def crc32_reference (bytes : List Nat) : Nat :=
  let update := fun (c : Nat) =>
    if c.testBit 31 then (2 * c) % 2 ^ 32 ^^^ 0x04C11DB7 else (2 * c) % 2 ^ 32
  let feed := fun (c b : Nat) => update^[8] (c ^^^ rev8 b * 2 ^ 24)
  rev32 (bytes.foldl feed 0xFFFFFFFF) ^^^ 0xFFFFFFFF

/-! ## Serialization and parsing lemmas -/

/-- Parsing the serialized record recovers the record, truncated to the
machine field widths, and leaves the remainder of the stream. -/
theorem parseMeta_append (m : Metadata) (rest : List Nat) :
    parseMeta (m.as_bytes ++ rest) = some (reduceMeta m, rest) := by
  simp only [Metadata.as_bytes, Metadata.as_bytes_without_checksum, le8, le4, le2,
    List.cons_append, List.nil_append, List.append_assoc]
  simp only [parseMeta, deLE, reduceMeta]
  simp only [Option.some.injEq, Prod.mk.injEq, Metadata.mk.injEq, and_true]
  omega

/-- Fewer than 40 bytes never parse. -/
theorem parseMeta_short {bs : List Nat} (h : bs.length < 40) :
    parseMeta bs = none := by
  unfold parseMeta
  split
  · simp only [List.length_cons] at h
    omega
  · rfl

/-- A short read at either record position is `Exhausted`. -/
theorem read_meta_short {n : String} {s : List Nat} (h : s.length < 40) :
    read_meta n s = .error .Exhausted := by
  unfold read_meta
  rw [parseMeta_short h]

/-- A well-positioned record with matching magic reads back fine. -/
theorem read_meta_append_ok {m : Metadata} (n : String) (rest : List Nat)
    (h : m.magic % 2 ^ 32 = MAGIC) :
    read_meta n (m.as_bytes ++ rest) = .ok (reduceMeta m, rest) := by
  unfold read_meta
  rw [parseMeta_append]
  unfold MAGIC at h
  simp [Metadata.check, reduceMeta, MAGIC]
  omega

/-- A magic mismatch yields `DecodeError::Header` at either position. -/
theorem read_meta_append_bad {m : Metadata} (n : String) (rest : List Nat)
    (h : m.magic % 2 ^ 32 ≠ MAGIC) :
    read_meta n (m.as_bytes ++ rest) = .error .Header := by
  unfold read_meta
  rw [parseMeta_append]
  unfold MAGIC at h
  simp [Metadata.check, reduceMeta, MAGIC]
  omega

/-! ## Decoder-loop lemmas -/

/-- The driving loop after a successful entry attempt. -/
theorem read_cons {s : List Nat} {r : Report} {rest : List Nat}
    (h : read1 s = .ok (r, rest)) : read s = r :: read rest := by
  rw [read]
  split
  · rename_i heq
    rw [h] at heq
    exact absurd heq (by simp)
  · rename_i r' rest' heq
    rw [h] at heq
    simp only [Except.ok.injEq, Prod.mk.injEq] at heq
    rw [heq.1, heq.2]

/-- The driving loop stops at the first non-success outcome. -/
theorem read_nil {s : List Nat} {e : DecodeError}
    (h : read1 s = .error e) : read s = [] := by
  rw [read]
  split
  · rfl
  · rename_i r' rest' heq
    rw [h] at heq
    exact absurd heq (by simp)

/-- An empty stream ends the loop cleanly. -/
theorem read1_nil : read1 [] = .error .Exhausted := rfl

/-- Decoding one well-laid-out entry: header record, exactly `path_len`
path bytes, exactly `file_size` body bytes, footer record. -/
theorem read1_layout (m mf : Metadata) (path body rest : List Nat)
    (hmagic : m.magic % 2 ^ 32 = MAGIC)
    (hfmagic : mf.magic % 2 ^ 32 = MAGIC)
    (hpl : m.path_len % 2 ^ 16 = path.length)
    (hfs : m.file_size % 2 ^ 64 = body.length)
    (hsz : m.file_size % 2 ^ 64 < 2 ^ 63) :
    read1 (m.as_bytes ++ path ++ body ++ mf.as_bytes ++ rest) =
      .ok ({ kind := (reduceMeta m).kind, path := path,
             size := m.file_size % 2 ^ 64 }, rest) := by
  have hassoc : m.as_bytes ++ path ++ body ++ mf.as_bytes ++ rest =
      m.as_bytes ++ (path ++ (body ++ (mf.as_bytes ++ rest))) := by
    simp [List.append_assoc]
  unfold read1
  rw [hassoc, read_meta_append_ok _ _ hmagic]
  dsimp only
  have h1 : readExact (reduceMeta m).path_len (path ++ (body ++ (mf.as_bytes ++ rest))) =
      some (path, body ++ (mf.as_bytes ++ rest)) := by
    unfold readExact
    have hplr : (reduceMeta m).path_len = path.length := by
      simp only [reduceMeta]
      omega
    rw [hplr, if_neg (by simp), List.take_left, List.drop_left]
  rw [h1]
  dsimp only
  have h2 : seekPast (reduceMeta m).file_size (body ++ (mf.as_bytes ++ rest)) =
      some (mf.as_bytes ++ rest) := by
    unfold seekPast
    have hfsr : (reduceMeta m).file_size = body.length := by
      simp only [reduceMeta]
      omega
    rw [hfsr, if_pos (by omega), List.drop_left]
  rw [h2]
  dsimp only
  rw [read_meta_append_ok _ _ hfmagic]
  simp [reduceMeta]

/-- Decoding one encoder-produced entry reports the object's kind label,
full path and size, and consumes exactly the entry's bytes. -/
theorem read1_entry (p : List Nat) (t : FsTree) (rest : List Nat)
    (hp : p.length < 2 ^ 16) (hb : t.body.length < 2 ^ 63) :
    read1 (append_to_archive p t ++ rest) =
      .ok ({ kind := if t.isDir then "Directory" else "File", path := p,
             size := t.body.length }, rest) := by
  simp only [append_to_archive]
  rw [read1_layout _ _ _ _ _
    (by simp [Metadata.set_checksum, entryMeta, MAGIC])
    (by simp [Metadata.set_checksum, entryMeta, MAGIC])
    (by simp [Metadata.set_checksum, entryMeta]; omega)
    (by simp [Metadata.set_checksum, entryMeta]; omega)
    (by simp [Metadata.set_checksum, entryMeta]; omega)]
  cases ht : t.isDir <;>
    simp [reduceMeta, Metadata.kind, Metadata.set_checksum, entryMeta, ht,
      flags.DIR, flags.FILE, flags.HEADER] <;> omega

/-- The loop decodes a concatenation of encoder-produced entries into the
corresponding list of reports, one per entry, in stream order. -/
theorem read_entry_list (l : List (List Nat × FsTree))
    (h : ∀ e ∈ l, e.1.length < 2 ^ 16 ∧ e.2.body.length < 2 ^ 63) :
    read ((l.map fun e => append_to_archive e.1 e.2).flatten) =
      l.map (fun e => ({ kind := if e.2.isDir then "Directory" else "File",
                         path := e.1, size := e.2.body.length } : Report)) := by
  induction l with
  | nil =>
    simp only [List.map_nil, List.flatten_nil]
    exact read_nil read1_nil
  | cons e tl ih =>
    have he := h e (by simp)
    have htl : ∀ x ∈ tl, x.1.length < 2 ^ 16 ∧ x.2.body.length < 2 ^ 63 :=
      fun x hx => h x (by simp [hx])
    simp only [List.map_cons, List.flatten_cons]
    rw [read_cons (read1_entry e.1 e.2 _ he.1 he.2), ih htl]

/-! ## Claims -/

/-- **C1** — Round-trip: archiving a subtree whose `find`-visited objects
are physically realizable (path fits the 16-bit field, body fits `i64`)
and then running the decoder's driving loop on the produced byte stream
reports exactly (number of directories) + (number of non-directories)
entries, and the reports are, in order, the kind label, path bytes and
size of the directory entries in depth-first pre-order of discovery
followed by those of the non-directory entries in the same order. -/
theorem c1_roundtrip (rootPath : List Nat) (root : FsTree)
    (h : (find rootPath root).all wfEntryB = true) :
    read (recursive_archive rootPath root) =
      (((find rootPath root).filter fun e => e.2.isDir) ++
       ((find rootPath root).filter fun e => !e.2.isDir)).map
        (fun e => ({ kind := if e.2.isDir then "Directory" else "File",
                     path := e.1, size := e.2.body.length } : Report)) ∧
    (read (recursive_archive rootPath root)).length =
      ((find rootPath root).countP fun e => e.2.isDir) +
      ((find rootPath root).countP fun e => !e.2.isDir) := by
  have h' : ∀ e ∈ (((find rootPath root).filter fun e => e.2.isDir) ++
      ((find rootPath root).filter fun e => !e.2.isDir)),
      e.1.length < 2 ^ 16 ∧ e.2.body.length < 2 ^ 63 := by
    intro e he
    have hmem : e ∈ find rootPath root := by
      rcases List.mem_append.mp he with he' | he' <;> exact List.mem_of_mem_filter he'
    have := List.all_eq_true.mp h e hmem
    simpa [wfEntryB] using this
  have hstream : recursive_archive rootPath root =
      ((((find rootPath root).filter fun e => e.2.isDir) ++
        ((find rootPath root).filter fun e => !e.2.isDir)).map
          fun e => append_to_archive e.1 e.2).flatten := by
    simp [recursive_archive, List.map_append, List.flatten_append]
  rw [hstream, read_entry_list _ h']
  refine ⟨rfl, ?_⟩
  simp [List.length_append, List.countP_eq_length_filter]

/-- Concrete round-trip instance: `sampleTree` (1 directory, 1 file). -/
theorem c1_roundtrip_witness :
    (find [114] sampleTree).all wfEntryB = true ∧
    (read (recursive_archive [114] sampleTree) =
      (((find [114] sampleTree).filter fun e => e.2.isDir) ++
       ((find [114] sampleTree).filter fun e => !e.2.isDir)).map
        (fun e => ({ kind := if e.2.isDir then "Directory" else "File",
                     path := e.1, size := e.2.body.length } : Report)) ∧
     (read (recursive_archive [114] sampleTree)).length =
      ((find [114] sampleTree).countP fun e => e.2.isDir) +
      ((find [114] sampleTree).countP fun e => !e.2.isDir)) := by
  have hwf : (find [114] sampleTree).all wfEntryB = true := by
    simp [sampleTree, find, findChildren, wfEntryB, FsTree.name, FsTree.body]
  exact ⟨hwf, c1_roundtrip [114] sampleTree hwf⟩

/-- **C4** — `recursive_archive` emits, for any subtree: the stream is the
concatenation of the encodings of all the directory entries of the
depth-first pre-order collection (root first, discovery order) followed
by those of all non-directory entries; the written order is a permutation
of the collection; and every directory entry's position strictly precedes
every non-directory entry's position. -/
theorem c4_two_phase (rootPath : List Nat) (root : FsTree) :
    recursive_archive rootPath root =
      ((((find rootPath root).filter fun e => e.2.isDir) ++
        ((find rootPath root).filter fun e => !e.2.isDir)).map
          fun e => append_to_archive e.1 e.2).flatten ∧
    (find rootPath root).head? = some (rootPath, root) ∧
    List.Perm
      (((find rootPath root).filter fun e => e.2.isDir) ++
       ((find rootPath root).filter fun e => !e.2.isDir))
      (find rootPath root) ∧
    ∀ i j : Nat, ∀ ei ej : List Nat × FsTree,
      (((find rootPath root).filter fun e => e.2.isDir) ++
       ((find rootPath root).filter fun e => !e.2.isDir))[i]? = some ei →
      (((find rootPath root).filter fun e => e.2.isDir) ++
       ((find rootPath root).filter fun e => !e.2.isDir))[j]? = some ej →
      ei.2.isDir = true → ej.2.isDir = false → i < j := by
  refine ⟨?_, ?_, ?_, ?_⟩
  · simp [recursive_archive, List.map_append, List.flatten_append]
  · cases root <;> simp [find]
  · exact List.filter_append_perm _ _
  · intro i j ei ej hei hej hdi hdj
    have hiA : i < ((find rootPath root).filter fun e => e.2.isDir).length := by
      by_contra hge
      push_neg at hge
      rw [List.getElem?_append_right hge] at hei
      have hmem := List.getElem?_mem hei
      have hfalse := (List.mem_filter.mp hmem).2
      simp [hdi] at hfalse
    have hjA : ¬ (j < ((find rootPath root).filter fun e => e.2.isDir).length) := by
      intro hlt
      rw [List.getElem?_append_left hlt] at hej
      have hmem := List.getElem?_mem hej
      have htrue := (List.mem_filter.mp hmem).2
      simp [hdj] at htrue
    omega

/-- Concrete instance of the ordering part of the two-phase contract:
in `sampleTree`'s archive the directory entry (position 0) precedes the
file entry (position 1). -/
theorem c4_two_phase_witness :
    ((((find [114] sampleTree).filter fun e => e.2.isDir) ++
      ((find [114] sampleTree).filter fun e => !e.2.isDir))[0]? =
        some ([114], sampleTree)) ∧
    ((((find [114] sampleTree).filter fun e => e.2.isDir) ++
      ((find [114] sampleTree).filter fun e => !e.2.isDir))[1]? =
        some ([114, 47, 97], FsTree.file [97] 6 [1, 2])) ∧
    ([114], sampleTree).2.isDir = true ∧
    ([114, 47, 97], FsTree.file [97] 6 [1, 2]).2.isDir = false ∧
    0 < 1 := by
  have h0 : (((find [114] sampleTree).filter fun e => e.2.isDir) ++
      ((find [114] sampleTree).filter fun e => !e.2.isDir))[0]? =
        some ([114], sampleTree) := by
    simp [sampleTree, find, findChildren, FsTree.name, FsTree.isDir]
  have h1 : (((find [114] sampleTree).filter fun e => e.2.isDir) ++
      ((find [114] sampleTree).filter fun e => !e.2.isDir))[1]? =
        some ([114, 47, 97], FsTree.file [97] 6 [1, 2]) := by
    simp [sampleTree, find, findChildren, FsTree.name, FsTree.isDir]
  have hd0 : ([114], sampleTree).2.isDir = true := by simp [sampleTree, FsTree.isDir]
  have hd1 : ([114, 47, 97], FsTree.file [97] 6 [1, 2]).2.isDir = false := by
    simp [FsTree.isDir]
  exact ⟨h0, h1, hd0, hd1,
    (c4_two_phase [114] sampleTree).2.2.2 0 1 _ _ h0 h1 hd0 hd1⟩

/-- The shift-register step written with `testBit` and arithmetic shift. -/
theorem crcStep_as_reference : crcStep = fun c =>
    if c.testBit 31 then (2 * c) % 2 ^ 32 ^^^ 0x04C11DB7 else (2 * c) % 2 ^ 32 := by
  funext c
  unfold crcStep POLYNOMIAL
  have h31 : (1 : Nat) <<< 31 = 2 ^ 31 := by simp [Nat.shiftLeft_eq]
  have hshl : c <<< 1 = 2 * c := by rw [Nat.shiftLeft_eq]; ring
  rw [h31, hshl, Nat.and_two_pow]
  by_cases hb : c.testBit 31 <;> simp [hb]

/-- The per-byte loop body written in the reference form. -/
theorem crcByteStep_as_reference : crcByteStep = fun (c b : Nat) =>
    (fun c => if c.testBit 31 then (2 * c) % 2 ^ 32 ^^^ 0x04C11DB7
              else (2 * c) % 2 ^ 32)^[8] (c ^^^ rev8 b * 2 ^ 24) := by
  funext c b
  unfold crcByteStep
  rw [crcStep_as_reference, Nat.shiftLeft_eq]

set_option maxRecDepth 20000 in
/-- **C2** — the checksum engine is the standard CRC-32: `digest` agrees
with the spec's description of the algorithm (normal-form polynomial
0x04C11DB7, bit-reversed input and output, initial register all one-bits,
final value complemented) on every byte sequence, and on the ASCII bytes
of "123456789" it yields the standard check value 0xCBF43926. -/
theorem c2_crc32 :
    (∀ bytes : List Nat, digest bytes = crc32_reference bytes) ∧
    digest [49, 50, 51, 52, 53, 54, 55, 56, 57] = 0xCBF43926 := by
  constructor
  · intro bytes
    have h : (2 : Nat) ^ 32 - 1 = 0xFFFFFFFF := by norm_num
    unfold digest crc32_reference
    rw [crcByteStep_as_reference, h]
  · decide

/-- **C10** — `Metadata::kind` is total: the two-bit kind field is always
one of 0..3, so the label is always one of the four kind names and the
`unreachable!` arm can never run. -/
theorem c10_kind_total (m : Metadata) :
    m.flags &&& 3 < 4 ∧
    (m.kind = "File" ∨ m.kind = "Directory" ∨ m.kind = "Soft Link" ∨
      m.kind = "Hard Link") := by
  have h : m.flags &&& 3 ≤ 3 := Nat.and_le_right
  refine ⟨by omega, ?_⟩
  unfold Metadata.kind
  rcases (by omega : m.flags &&& 3 = 0 ∨ m.flags &&& 3 = 1 ∨
      m.flags &&& 3 = 2 ∨ m.flags &&& 3 = 3) with h' | h' | h' | h' <;>
    rw [h'] <;> simp

/-- **C6** — a metadata record serializes to exactly 40 bytes in the
stated field order; the checksummed prefix is the 32 bytes preceding the
checksum field, and it is unchanged by any value stored in the checksum
field. -/
theorem c6_record_layout (m : Metadata) (c1 c2 : Nat) :
    (m.as_bytes).length = 40 ∧
    (m.as_bytes_without_checksum).length = 32 ∧
    m.as_bytes_without_checksum = (m.as_bytes).take 32 ∧
    ({ m with checksum := c1 } : Metadata).as_bytes_without_checksum =
      ({ m with checksum := c2 } : Metadata).as_bytes_without_checksum := by
  have hlen : (m.as_bytes_without_checksum).length = 32 := by
    simp [Metadata.as_bytes_without_checksum, le8, le4, le2]
  refine ⟨?_, hlen, ?_, rfl⟩
  · simp [Metadata.as_bytes, Metadata.as_bytes_without_checksum, le8, le4, le2]
  · rw [Metadata.as_bytes, ← hlen, List.append_assoc, List.take_left]

/-- **C9** — a path longer than 65535 bytes is not rejected: the 16-bit
`path_len` field stores the length reduced modulo `2^16` (the `as u16`
narrowing), yet all the path bytes are still written to the stream right
after the 40-byte header. -/
theorem c9_path_truncation (p : List Nat) (t : FsTree) (h : p.length > 65535) :
    (entryMeta p t).path_len = p.length % 2 ^ 16 ∧
    (entryMeta p t).path_len ≠ p.length ∧
    ((append_to_archive p t).drop 40).take p.length = p ∧
    (append_to_archive p t).length = 40 + p.length + t.body.length + 40 := by
  have hlen : ∀ mm : Metadata, (mm.as_bytes).length = 40 := fun mm => by
    simp [Metadata.as_bytes, Metadata.as_bytes_without_checksum, le8, le4, le2]
  refine ⟨rfl, ?_, ?_, ?_⟩
  · simp only [entryMeta]
    omega
  · simp only [append_to_archive, List.append_assoc]
    rw [← hlen (Metadata.set_checksum
      { entryMeta p t with flags := (entryMeta p t).flags ||| flags.HEADER })]
    rw [List.drop_left, List.take_left]
  · simp [append_to_archive, hlen]
    omega

/-- Concrete truncation instance: a 65537-byte path stores `path_len = 1`. -/
theorem c9_path_truncation_witness :
    (List.replicate 65537 97).length > 65535 ∧
    ((entryMeta (List.replicate 65537 97) (FsTree.file [] 0 [])).path_len =
        (List.replicate 65537 97).length % 2 ^ 16 ∧
     (entryMeta (List.replicate 65537 97) (FsTree.file [] 0 [])).path_len ≠
        (List.replicate 65537 97).length ∧
     ((append_to_archive (List.replicate 65537 97) (FsTree.file [] 0 [])).drop 40).take
        (List.replicate 65537 97).length = List.replicate 65537 97 ∧
     (append_to_archive (List.replicate 65537 97) (FsTree.file [] 0 [])).length =
        40 + (List.replicate 65537 97).length +
          (FsTree.file [] 0 []).body.length + 40) := by
  have h : (List.replicate 65537 97).length > 65535 := by norm_num
  exact ⟨h, c9_path_truncation _ _ h⟩

/-- **C3** — at the footer position, a magic mismatch is reported as
`DecodeError::Header`, not `DecodeError::Footer`: `read_meta` hardcodes
the `Header` variant and uses its `name` argument only in the log line.
The stream below is a valid empty-entry header followed by a 40-byte
record with wrong magic at the footer position. -/
theorem c3_footer_mismatch_yields_header :
    read1 (goodHeader.as_bytes ++ badMagicFooter.as_bytes) =
      .error DecodeError.Header ∧
    DecodeError.Header ≠ DecodeError.Footer := by
  exact ⟨rfl, by decide⟩

/-- **C8** — a short read of the 40 record bytes signals `Exhausted` at
both record positions: any stream shorter than 40 bytes ends the loop
with `Exhausted` at the header position, and a well-formed header, path
and body followed by fewer than 40 trailing bytes yields `Exhausted` at
the footer position (not `Crop`, not `Footer`). -/
theorem c8_short_reads_exhausted :
    (∀ s : List Nat, s.length < 40 → read1 s = .error .Exhausted) ∧
    (∀ (m : Metadata) (path body tail : List Nat),
      m.magic % 2 ^ 32 = MAGIC →
      m.path_len % 2 ^ 16 = path.length →
      m.file_size % 2 ^ 64 = body.length →
      m.file_size % 2 ^ 64 < 2 ^ 63 →
      tail.length < 40 →
      read1 (m.as_bytes ++ path ++ body ++ tail) = .error .Exhausted) := by
  constructor
  · intro s hs
    unfold read1
    rw [read_meta_short hs]
  · intro m path body tail hmagic hpl hfs hsz htail
    have hassoc : m.as_bytes ++ path ++ body ++ tail =
        m.as_bytes ++ (path ++ (body ++ tail)) := by simp [List.append_assoc]
    unfold read1
    rw [hassoc, read_meta_append_ok _ _ hmagic]
    dsimp only
    have h1 : readExact (reduceMeta m).path_len (path ++ (body ++ tail)) =
        some (path, body ++ tail) := by
      unfold readExact
      have hplr : (reduceMeta m).path_len = path.length := by
        simp only [reduceMeta]
        omega
      rw [hplr, if_neg (by simp), List.take_left, List.drop_left]
    rw [h1]
    dsimp only
    have h2 : seekPast (reduceMeta m).file_size (body ++ tail) = some tail := by
      unfold seekPast
      have hfsr : (reduceMeta m).file_size = body.length := by
        simp only [reduceMeta]
        omega
      rw [hfsr, if_pos (by omega), List.drop_left]
    rw [h2]
    dsimp only
    rw [read_meta_short htail]

/-- Concrete `Exhausted` instances: a 3-byte stream at the header
position, and a valid empty-entry header followed by nothing at the
footer position. -/
theorem c8_short_reads_exhausted_witness :
    ([(1 : Nat), 2, 3].length < 40 ∧ read1 [1, 2, 3] = .error .Exhausted) ∧
    (goodHeader.magic % 2 ^ 32 = MAGIC ∧
     goodHeader.path_len % 2 ^ 16 = ([] : List Nat).length ∧
     goodHeader.file_size % 2 ^ 64 = ([] : List Nat).length ∧
     goodHeader.file_size % 2 ^ 64 < 2 ^ 63 ∧
     ([] : List Nat).length < 40 ∧
     read1 (goodHeader.as_bytes ++ [] ++ [] ++ []) = .error .Exhausted) := by
  refine ⟨⟨by norm_num, c8_short_reads_exhausted.1 [1, 2, 3] (by norm_num)⟩,
    by decide, by decide, by decide, by decide, by norm_num,
    c8_short_reads_exhausted.2 goodHeader [] [] []
      (by decide) (by decide) (by decide) (by decide) (by norm_num)⟩

/-- Every serialized record is exactly 40 bytes. -/
theorem as_bytes_length (m : Metadata) : (m.as_bytes).length = 40 := by
  simp [Metadata.as_bytes, Metadata.as_bytes_without_checksum, le8, le4, le2]

/-- A record with matching magic at position `pos` reads back fine. -/
theorem read_meta_at_ok {m : Metadata} (n : String) {buf : List Nat} {pos : Nat}
    {rest : List Nat} (hdrop : buf.drop pos = m.as_bytes ++ rest)
    (h : m.magic % 2 ^ 32 = MAGIC) :
    read_meta_at n buf pos = .ok (reduceMeta m, pos + 40) := by
  unfold read_meta_at
  rw [hdrop, parseMeta_append]
  unfold MAGIC at h
  simp [Metadata.check, reduceMeta, MAGIC]
  omega

/-- A magic mismatch yields `DecodeError::Header` at either position. -/
theorem read_meta_at_bad {m : Metadata} (n : String) {buf : List Nat} {pos : Nat}
    {rest : List Nat} (hdrop : buf.drop pos = m.as_bytes ++ rest)
    (h : m.magic % 2 ^ 32 ≠ MAGIC) :
    read_meta_at n buf pos = .error .Header := by
  unfold read_meta_at
  rw [hdrop, parseMeta_append]
  unfold MAGIC at h
  simp [Metadata.check, reduceMeta, MAGIC]
  omega

/-- `read_meta` only ever signals `Exhausted` or `Header`. -/
theorem read_meta_at_error_cases {n : String} {buf : List Nat} {pos : Nat}
    {e : DecodeError} (h : read_meta_at n buf pos = .error e) :
    e = .Exhausted ∨ e = .Header := by
  unfold read_meta_at at h
  split at h
  · simp only [Except.error.injEq] at h
    exact Or.inl h.symm
  · split at h
    · exact absurd h (by simp)
    · simp only [Except.error.injEq] at h
      exact Or.inr h.symm

/-- **C7 (amended)** — for streams laid out as header/path/body/footer
whose header `file_size` is below `2^63` (a non-negative `i64`, i.e. a
forward seek), the decode outcome of a single entry attempt is
independent of the checksum fields of both records and of the footer's
payload fields other than magic; and the decode path never signals
`Checksum` on any stream.  The `< 2^63` bound is forced by the
counterexample: above it the seek moves backward and the outcome can
depend on the header's checksum bytes. -/
theorem c7_amended :
    (∀ (mh1 mh2 mf1 mf2 : Metadata) (mid rest : List Nat),
      mh1.modified_at = mh2.modified_at →
      mh1.file_size = mh2.file_size →
      mh1.path_len = mh2.path_len →
      mh1.perms = mh2.perms →
      mh1.owner = mh2.owner →
      mh1.group = mh2.group →
      mh1.magic = mh2.magic →
      mh1.flags = mh2.flags →
      mf1.magic = mf2.magic →
      mid.length = mh1.path_len % 2 ^ 16 + mh1.file_size % 2 ^ 64 →
      mh1.file_size % 2 ^ 64 < 2 ^ 63 →
      read1_at (mh1.as_bytes ++ mid ++ mf1.as_bytes ++ rest) 0 =
        read1_at (mh2.as_bytes ++ mid ++ mf2.as_bytes ++ rest) 0) ∧
    (∀ (buf : List Nat) (pos : Nat), read1_at buf pos ≠ .error .Checksum) := by
  constructor
  · intro mh1 mh2 mf1 mf2 mid rest hmod hfs hpl hperms howner hgroup hmagic hflags
      hfmagic hlen hsz
    have key : ∀ (mh mf : Metadata),
        (mh.as_bytes ++ mid ++ mf.as_bytes ++ rest).drop 40 =
          mid ++ (mf.as_bytes ++ rest) ∧
        (mh.as_bytes ++ mid ++ mf.as_bytes ++ rest).drop (40 + mid.length) =
          mf.as_bytes ++ rest ∧
        readExact_at (mh1.path_len % 2 ^ 16) (mh.as_bytes ++ mid ++ mf.as_bytes ++ rest)
          40 = some (mid.take (mh1.path_len % 2 ^ 16), 40 + mh1.path_len % 2 ^ 16) ∧
        seekCurrent (mh1.file_size % 2 ^ 64) (40 + mh1.path_len % 2 ^ 16) =
          some (40 + mid.length) := by
      intro mh mf
      have hbuf : mh.as_bytes ++ mid ++ mf.as_bytes ++ rest =
          mh.as_bytes ++ (mid ++ (mf.as_bytes ++ rest)) := by
        simp [List.append_assoc]
      have hd40 : (mh.as_bytes ++ mid ++ mf.as_bytes ++ rest).drop 40 =
          mid ++ (mf.as_bytes ++ rest) := by
        rw [hbuf, ← as_bytes_length mh, List.drop_left]
      have hdfoot : (mh.as_bytes ++ mid ++ mf.as_bytes ++ rest).drop (40 + mid.length) =
          mf.as_bytes ++ rest := by
        rw [← List.drop_drop, hd40, List.drop_left]
      refine ⟨hd40, hdfoot, ?_, ?_⟩
      · unfold readExact_at
        rw [if_neg ?hc, hd40,
          List.take_append_of_le_length (by omega)]
        case hc =>
          simp only [List.length_append, as_bytes_length]
          omega
      · unfold seekCurrent
        rw [if_pos hsz]
        congr 1
        omega
    obtain ⟨hd40a, hdfoota, hexa, hska⟩ := key mh1 mf1
    obtain ⟨hd40b, hdfootb, hexb, hskb⟩ := key mh2 mf2
    have hdrop0a : (mh1.as_bytes ++ mid ++ mf1.as_bytes ++ rest).drop 0 =
        mh1.as_bytes ++ (mid ++ (mf1.as_bytes ++ rest)) := by
      simp [List.append_assoc]
    have hdrop0b : (mh2.as_bytes ++ mid ++ mf2.as_bytes ++ rest).drop 0 =
        mh2.as_bytes ++ (mid ++ (mf2.as_bytes ++ rest)) := by
      simp [List.append_assoc]
    unfold read1_at
    by_cases hm : mh1.magic % 2 ^ 32 = MAGIC
    · rw [read_meta_at_ok _ hdrop0a hm, read_meta_at_ok _ hdrop0b (hmagic ▸ hm)]
      dsimp only
      have hpla : (reduceMeta mh1).path_len = mh1.path_len % 2 ^ 16 := rfl
      have hplb : (reduceMeta mh2).path_len = mh1.path_len % 2 ^ 16 := by
        simp [reduceMeta, hpl]
      have hfsa : (reduceMeta mh1).file_size = mh1.file_size % 2 ^ 64 := rfl
      have hfsb : (reduceMeta mh2).file_size = mh1.file_size % 2 ^ 64 := by
        simp [reduceMeta, hfs]
      rw [hpla, hplb]
      simp only [Nat.zero_add]
      rw [hexa, hexb]
      dsimp only
      rw [hfsa, hfsb, hska]
      dsimp only
      by_cases hfm : mf1.magic % 2 ^ 32 = MAGIC
      · rw [read_meta_at_ok _ hdfoota hfm, read_meta_at_ok _ hdfootb (hfmagic ▸ hfm)]
        dsimp only
        have hkind : (reduceMeta mh1).kind = (reduceMeta mh2).kind := by
          simp [reduceMeta, Metadata.kind, hflags]
        rw [hkind, hfs]
      · rw [read_meta_at_bad _ hdfoota hfm, read_meta_at_bad _ hdfootb (hfmagic ▸ hfm)]
    · rw [read_meta_at_bad _ hdrop0a hm, read_meta_at_bad _ hdrop0b (hmagic ▸ hm)]
  · intro buf pos h
    unfold read1_at at h
    split at h
    · rename_i e1 hm1
      have he1 : e1 = DecodeError.Checksum := by simpa using h
      rcases read_meta_at_error_cases hm1 with he | he <;> simp [he1] at he
    · split at h
      · simp at h
      · split at h
        · simp at h
        · split at h
          · rename_i e2 hm2
            have he2 : e2 = DecodeError.Checksum := by simpa using h
            rcases read_meta_at_error_cases hm2 with he | he <;> simp [he2] at he
          · simp at h

/-- **C7** as stated is false on the code: the two 80-byte streams below
differ only in the header's checksum field (bytes 32..36), yet one
decodes to a successful entry and the other to a `Header` error.  The
header's `file_size` is `2^64 - 32`, which the decoder's `u64 → i64`
cast turns into a 32-byte backward seek, so the "footer" record is read
at stream offset 8 and its magic field falls exactly on the header's
checksum bytes. -/
theorem c7_counterexample :
    wrapHeader.modified_at = wrapHeader0.modified_at ∧
    wrapHeader.file_size = wrapHeader0.file_size ∧
    wrapHeader.path_len = wrapHeader0.path_len ∧
    wrapHeader.perms = wrapHeader0.perms ∧
    wrapHeader.owner = wrapHeader0.owner ∧
    wrapHeader.group = wrapHeader0.group ∧
    wrapHeader.magic = wrapHeader0.magic ∧
    wrapHeader.flags = wrapHeader0.flags ∧
    wrapHeader.checksum ≠ wrapHeader0.checksum ∧
    read1_at (wrapHeader.as_bytes ++ goodHeader.as_bytes) 0 =
      .ok ({ kind := "File", path := [], size := 2 ^ 64 - 32 }, 48) ∧
    read1_at (wrapHeader0.as_bytes ++ goodHeader.as_bytes) 0 =
      .error DecodeError.Header ∧
    read1_at (wrapHeader.as_bytes ++ goodHeader.as_bytes) 0 ≠
      read1_at (wrapHeader0.as_bytes ++ goodHeader.as_bytes) 0 := by
  have h1 : read1_at (wrapHeader.as_bytes ++ goodHeader.as_bytes) 0 =
      .ok ({ kind := "File", path := [], size := 2 ^ 64 - 32 }, 48) := rfl
  have h2 : read1_at (wrapHeader0.as_bytes ++ goodHeader.as_bytes) 0 =
      .error DecodeError.Header := rfl
  refine ⟨rfl, rfl, rfl, rfl, rfl, rfl, rfl, rfl, by decide, h1, h2, ?_⟩
  rw [h1, h2]
  simp

/-- Concrete independence instance for the amended claim: changing the
header checksum and the footer's size/checksum fields leaves the
outcome unchanged when the seek is forward. -/
theorem c7_amended_witness :
    (goodHeader.modified_at = ({ goodHeader with checksum := 7 } : Metadata).modified_at ∧
     goodHeader.file_size = ({ goodHeader with checksum := 7 } : Metadata).file_size ∧
     goodHeader.path_len = ({ goodHeader with checksum := 7 } : Metadata).path_len ∧
     goodHeader.perms = ({ goodHeader with checksum := 7 } : Metadata).perms ∧
     goodHeader.owner = ({ goodHeader with checksum := 7 } : Metadata).owner ∧
     goodHeader.group = ({ goodHeader with checksum := 7 } : Metadata).group ∧
     goodHeader.magic = ({ goodHeader with checksum := 7 } : Metadata).magic ∧
     goodHeader.flags = ({ goodHeader with checksum := 7 } : Metadata).flags ∧
     goodHeader.magic =
       ({ goodHeader with file_size := 99, checksum := 3 } : Metadata).magic ∧
     ([] : List Nat).length =
       goodHeader.path_len % 2 ^ 16 + goodHeader.file_size % 2 ^ 64 ∧
     goodHeader.file_size % 2 ^ 64 < 2 ^ 63) ∧
    read1_at (goodHeader.as_bytes ++ [] ++ goodHeader.as_bytes ++ []) 0 =
      read1_at (({ goodHeader with checksum := 7 } : Metadata).as_bytes ++ [] ++
        ({ goodHeader with file_size := 99, checksum := 3 } : Metadata).as_bytes ++ []) 0 := by
  exact ⟨⟨rfl, rfl, rfl, rfl, rfl, rfl, rfl, rfl, rfl, by decide, by decide⟩,
    c7_amended.1 goodHeader { goodHeader with checksum := 7 }
      goodHeader { goodHeader with file_size := 99, checksum := 3 } [] []
      rfl rfl rfl rfl rfl rfl rfl rfl rfl (by decide) (by decide)⟩

/-- `revAux` stays below `2^n * (acc+1)`. -/
theorem revAux_lt (n : Nat) : ∀ x acc, revAux n x acc < 2 ^ n * (acc + 1) := by
  induction n with
  | zero =>
    intro x acc
    simp [revAux]
  | succ n ih =>
    intro x acc
    rw [revAux]
    have hr : x % 2 ≤ 1 := by omega
    calc revAux n (x / 2) (2 * acc + x % 2) < 2 ^ n * (2 * acc + x % 2 + 1) := ih _ _
      _ ≤ 2 ^ n * (2 * (acc + 1)) := Nat.mul_le_mul_left _ (by omega)
      _ = 2 ^ (n + 1) * (acc + 1) := by ring

/-- A reversed byte is a byte. -/
theorem rev8_lt (x : Nat) : rev8 x < 256 := by
  simpa [rev8] using revAux_lt 8 x 0

/-- A reversed 32-bit word is a 32-bit word. -/
theorem rev32_lt (x : Nat) : rev32 x < 2 ^ 32 := by
  simpa [rev32] using revAux_lt 32 x 0

/-- The accumulator shifts out in front of the reversed bits. -/
theorem revAux_acc (n : Nat) : ∀ x acc, revAux n x acc = acc * 2 ^ n + revAux n x 0 := by
  induction n with
  | zero =>
    intro x acc
    simp [revAux]
  | succ n ih =>
    intro x acc
    simp only [revAux]
    rw [ih (x / 2) (2 * acc + x % 2), ih (x / 2) (2 * 0 + x % 2)]
    ring

/-- The reversal of the low `n` bits is below `2^n`. -/
theorem revAux_zero_lt (n x : Nat) : revAux n x 0 < 2 ^ n := by
  simpa using revAux_lt n x 0

/-- Bit reversal determines the low `n` bits. -/
theorem revAux_inj_mod (n : Nat) : ∀ x y, revAux n x 0 = revAux n y 0 →
    x % 2 ^ n = y % 2 ^ n := by
  induction n with
  | zero =>
    intro x y _
    simp [Nat.mod_one]
  | succ n ih =>
    intro x y h
    simp only [revAux] at h
    rw [revAux_acc n (x / 2), revAux_acc n (y / 2)] at h
    have hx := revAux_zero_lt n (x / 2)
    have hy := revAux_zero_lt n (y / 2)
    have hsplit : x % 2 = y % 2 ∧ revAux n (x / 2) 0 = revAux n (y / 2) 0 := by
      set K := 2 ^ n with hK
      rcases Nat.mod_two_eq_zero_or_one x with h0 | h0 <;>
        rcases Nat.mod_two_eq_zero_or_one y with h1 | h1 <;>
          rw [h0, h1] at h <;> constructor <;> omega
    have hrec := ih _ _ hsplit.2
    have hx2 : x % 2 ^ (n + 1) = x % 2 + 2 * (x / 2 % 2 ^ n) := by
      rw [pow_succ']
      exact Nat.mod_mul
    have hy2 : y % 2 ^ (n + 1) = y % 2 + 2 * (y / 2 % 2 ^ n) := by
      rw [pow_succ']
      exact Nat.mod_mul
    rw [hx2, hy2, hsplit.1, hrec]

/-- `rev32` is injective on 32-bit words. -/
theorem rev32_inj {x y : Nat} (hx : x < 2 ^ 32) (hy : y < 2 ^ 32)
    (h : rev32 x = rev32 y) : x = y := by
  have hmod := revAux_inj_mod 32 x y h
  rwa [Nat.mod_eq_of_lt hx, Nat.mod_eq_of_lt hy] at hmod



/-- The shift-register step stays within 32 bits. -/
theorem crcStep_lt (c : Nat) : crcStep c < 2 ^ 32 := by
  unfold crcStep
  split
  · exact Nat.xor_lt_two_pow (Nat.mod_lt _ (by norm_num)) (by norm_num [POLYNOMIAL])
  · exact Nat.mod_lt _ (by norm_num)

/-- Xor with the (odd) polynomial flips the parity of an even word. -/
theorem xor_poly_odd {x : Nat} (hx : x % 2 = 0) : (x ^^^ POLYNOMIAL) % 2 = 1 := by
  have hbit : (x ^^^ POLYNOMIAL).testBit 0 =
      ((x.testBit 0).xor (POLYNOMIAL.testBit 0)) := Nat.testBit_xor x POLYNOMIAL 0
  rw [Nat.testBit_zero, Nat.testBit_zero, Nat.testBit_zero] at hbit
  have hP : POLYNOMIAL % 2 = 1 := by decide
  rw [hx, hP] at hbit
  simpa using hbit

/-- The step with its bit test written in div/mod arithmetic. -/
theorem crcStep_eq_arith (c : Nat) : crcStep c =
    if c / 2 ^ 31 % 2 = 1 then c * 2 % 2 ^ 32 ^^^ POLYNOMIAL
    else c * 2 % 2 ^ 32 := by
  unfold crcStep
  have e31 : (1 : Nat) <<< 31 = 2 ^ 31 := by norm_num [Nat.shiftLeft_eq]
  rw [e31, Nat.and_two_pow, Nat.shiftLeft_eq, pow_one, Nat.testBit_to_div_mod]
  by_cases hb : c / 2 ^ 31 % 2 = 1
  · have hb' : c / 2147483648 % 2 = 1 := by norm_num at hb; exact hb
    rw [if_pos hb, if_pos (by simp [hb'])]
  · have hb' : ¬ c / 2147483648 % 2 = 1 := by norm_num at hb; omega
    rw [if_neg hb, if_neg (by simp [hb'])]

/-- The shift-register step is injective on 32-bit words: the shifted-out
top bit is recorded in the output parity because the polynomial is odd. -/
theorem crcStep_inj {c1 c2 : Nat} (h1 : c1 < 2 ^ 32) (h2 : c2 < 2 ^ 32)
    (h : crcStep c1 = crcStep c2) : c1 = c2 := by
  rw [crcStep_eq_arith, crcStep_eq_arith] at h
  by_cases hb1 : c1 / 2 ^ 31 % 2 = 1 <;> by_cases hb2 : c2 / 2 ^ 31 % 2 = 1
  · rw [if_pos hb1, if_pos hb2] at h
    have := Nat.xor_left_inj.mp h
    omega
  · exfalso
    rw [if_pos hb1, if_neg hb2] at h
    have hodd : (c1 * 2 % 2 ^ 32 ^^^ POLYNOMIAL) % 2 = 1 := xor_poly_odd (by omega)
    rw [h] at hodd
    omega
  · exfalso
    rw [if_neg hb1, if_pos hb2] at h
    have hodd : (c2 * 2 % 2 ^ 32 ^^^ POLYNOMIAL) % 2 = 1 := xor_poly_odd (by omega)
    rw [← h] at hodd
    omega
  · rw [if_neg hb1, if_neg hb2] at h
    omega



/-- Iterated steps stay within 32 bits. -/
theorem crcStepIter_lt (k c : Nat) (h : c < 2 ^ 32) : crcStep^[k] c < 2 ^ 32 := by
  induction k generalizing c with
  | zero => simpa using h
  | succ k ih =>
    rw [Function.iterate_succ_apply]
    exact ih _ (crcStep_lt c)

/-- Iterated steps are injective on 32-bit words. -/
theorem crcStepIter_inj (k : Nat) {c1 c2 : Nat} (h1 : c1 < 2 ^ 32) (h2 : c2 < 2 ^ 32)
    (h : crcStep^[k] c1 = crcStep^[k] c2) : c1 = c2 := by
  induction k generalizing c1 c2 with
  | zero => simpa using h
  | succ k ih =>
    rw [Function.iterate_succ_apply, Function.iterate_succ_apply] at h
    exact crcStep_inj h1 h2 (ih (crcStep_lt c1) (crcStep_lt c2) h)

/-- A reversed byte shifted to the top byte fits in 32 bits. -/
theorem rev8_shift_lt (b : Nat) : rev8 b <<< 24 < 2 ^ 32 := by
  rw [Nat.shiftLeft_eq]
  calc rev8 b * 2 ^ 24 < 256 * 2 ^ 24 :=
        Nat.mul_lt_mul_of_lt_of_le (rev8_lt b) (le_refl _) (by norm_num)
    _ = 2 ^ 32 := by norm_num

/-- The per-byte loop body stays within 32 bits. -/
theorem crcByteStep_lt (c b : Nat) (hc : c < 2 ^ 32) : crcByteStep c b < 2 ^ 32 := by
  unfold crcByteStep
  exact crcStepIter_lt 8 _ (Nat.xor_lt_two_pow hc (rev8_shift_lt b))

/-- The per-byte loop body is injective in the register. -/
theorem crcByteStep_inj (b : Nat) {c1 c2 : Nat} (h1 : c1 < 2 ^ 32) (h2 : c2 < 2 ^ 32)
    (h : crcByteStep c1 b = crcByteStep c2 b) : c1 = c2 := by
  unfold crcByteStep at h
  have := crcStepIter_inj 8 (Nat.xor_lt_two_pow h1 (rev8_shift_lt b))
    (Nat.xor_lt_two_pow h2 (rev8_shift_lt b)) h
  exact Nat.xor_left_inj.mp this

/-- The register stays within 32 bits along any input. -/
theorem foldl_crc_lt (l : List Nat) : ∀ c, c < 2 ^ 32 → l.foldl crcByteStep c < 2 ^ 32 := by
  induction l with
  | nil => intro c hc; simpa using hc
  | cons b tl ih =>
    intro c hc
    rw [List.foldl_cons]
    exact ih _ (crcByteStep_lt c b hc)

/-- Distinct registers stay distinct along a common input suffix. -/
theorem foldl_crc_ne (l : List Nat) : ∀ c1 c2, c1 < 2 ^ 32 → c2 < 2 ^ 32 → c1 ≠ c2 →
    l.foldl crcByteStep c1 ≠ l.foldl crcByteStep c2 := by
  induction l with
  | nil => intro c1 c2 _ _ hne; simpa using hne
  | cons b tl ih =>
    intro c1 c2 h1 h2 hne
    rw [List.foldl_cons, List.foldl_cons]
    exact ih _ _ (crcByteStep_lt c1 b h1) (crcByteStep_lt c2 b h2)
      (fun he => hne (crcByteStep_inj b h1 h2 he))

/-- Two inputs that agree except in one position whose bytes reverse
differently have different digests. -/
theorem digest_ne_of_byte_ne (pre zs : List Nat) {a b : Nat}
    (hab : rev8 a ≠ rev8 b) :
    digest (pre ++ a :: zs) ≠ digest (pre ++ b :: zs) := by
  unfold digest
  intro h
  have h1 : rev32 ((pre ++ a :: zs).foldl crcByteStep (2 ^ 32 - 1)) =
      rev32 ((pre ++ b :: zs).foldl crcByteStep (2 ^ 32 - 1)) :=
    Nat.xor_left_inj.mp h
  rw [List.foldl_append, List.foldl_append, List.foldl_cons, List.foldl_cons] at h1
  have hc : pre.foldl crcByteStep (2 ^ 32 - 1) < 2 ^ 32 :=
    foldl_crc_lt pre _ (by norm_num)
  have hne : crcByteStep (pre.foldl crcByteStep (2 ^ 32 - 1)) a ≠
      crcByteStep (pre.foldl crcByteStep (2 ^ 32 - 1)) b := by
    unfold crcByteStep
    intro he
    have hxor := crcStepIter_inj 8 (Nat.xor_lt_two_pow hc (rev8_shift_lt a))
      (Nat.xor_lt_two_pow hc (rev8_shift_lt b)) he
    have hsh := Nat.xor_right_inj.mp hxor
    rw [Nat.shiftLeft_eq, Nat.shiftLeft_eq] at hsh
    exact hab (by omega)
  have hfin := foldl_crc_ne zs _ _
    (crcByteStep_lt _ a hc) (crcByteStep_lt _ b hc) hne
  exact hfin (rev32_inj (foldl_crc_lt zs _ (crcByteStep_lt _ a hc))
    (foldl_crc_lt zs _ (crcByteStep_lt _ b hc)) h1)



/-- Two records that differ only in a small `flags` value have different
checksums. -/
theorem digest_flags_update_ne (mm : Metadata) (f1 f2 : Nat)
    (hf1 : f1 < 256) (hf2 : f2 < 256) (hne : rev8 f1 ≠ rev8 f2) :
    digest (Metadata.as_bytes_without_checksum { mm with flags := f1 }) ≠
      digest (Metadata.as_bytes_without_checksum { mm with flags := f2 }) := by
  have hl1 : le4 f1 = f1 :: [0, 0, 0] := by
    simp only [le4, List.cons.injEq, and_true]
    omega
  have hl2 : le4 f2 = f2 :: [0, 0, 0] := by
    simp only [le4, List.cons.injEq, and_true]
    omega
  simp only [Metadata.as_bytes_without_checksum]
  rw [hl1, hl2]
  exact digest_ne_of_byte_ne _ _ hne

/-- **C5** — for every entry built by `append_to_archive`: header and
footer records carry identical `modified_at`, `file_size`, `path_len`,
`perms`, `owner`, `group` and `magic`; their flags differ exactly in the
header bit (the footer's header bit is clear); and their checksum fields
differ, each checksum being computed over its own record's preceding
bytes. -/
theorem c5_header_footer_records (p : List Nat) (t : FsTree) :
    (Metadata.set_checksum { entryMeta p t with
        flags := (entryMeta p t).flags ||| flags.HEADER }).modified_at =
      (Metadata.set_checksum (entryMeta p t)).modified_at ∧
    (Metadata.set_checksum { entryMeta p t with
        flags := (entryMeta p t).flags ||| flags.HEADER }).file_size =
      (Metadata.set_checksum (entryMeta p t)).file_size ∧
    (Metadata.set_checksum { entryMeta p t with
        flags := (entryMeta p t).flags ||| flags.HEADER }).path_len =
      (Metadata.set_checksum (entryMeta p t)).path_len ∧
    (Metadata.set_checksum { entryMeta p t with
        flags := (entryMeta p t).flags ||| flags.HEADER }).perms =
      (Metadata.set_checksum (entryMeta p t)).perms ∧
    (Metadata.set_checksum { entryMeta p t with
        flags := (entryMeta p t).flags ||| flags.HEADER }).owner =
      (Metadata.set_checksum (entryMeta p t)).owner ∧
    (Metadata.set_checksum { entryMeta p t with
        flags := (entryMeta p t).flags ||| flags.HEADER }).group =
      (Metadata.set_checksum (entryMeta p t)).group ∧
    (Metadata.set_checksum { entryMeta p t with
        flags := (entryMeta p t).flags ||| flags.HEADER }).magic =
      (Metadata.set_checksum (entryMeta p t)).magic ∧
    (Metadata.set_checksum { entryMeta p t with
        flags := (entryMeta p t).flags ||| flags.HEADER }).flags ^^^
      (Metadata.set_checksum (entryMeta p t)).flags = flags.HEADER ∧
    (Metadata.set_checksum (entryMeta p t)).flags &&& flags.HEADER = 0 ∧
    (Metadata.set_checksum { entryMeta p t with
        flags := (entryMeta p t).flags ||| flags.HEADER }).checksum ≠
      (Metadata.set_checksum (entryMeta p t)).checksum := by
  refine ⟨rfl, rfl, rfl, rfl, rfl, rfl, rfl, ?_, ?_, ?_⟩
  · cases t <;>
      simp [Metadata.set_checksum, entryMeta, FsTree.isDir,
        flags.DIR, flags.FILE, flags.HEADER]
  · cases t <;>
      simp [Metadata.set_checksum, entryMeta, FsTree.isDir,
        flags.DIR, flags.FILE, flags.HEADER]
  · simp only [Metadata.set_checksum, Metadata.compute_checksum]
    have := digest_flags_update_ne (entryMeta p t)
      ((entryMeta p t).flags ||| flags.HEADER) (entryMeta p t).flags
      (by cases t <;> simp [entryMeta, FsTree.isDir, flags.DIR, flags.FILE, flags.HEADER])
      (by cases t <;> simp [entryMeta, FsTree.isDir, flags.DIR, flags.FILE])
      (by cases t <;>
        simp [entryMeta, FsTree.isDir, flags.DIR, flags.FILE, flags.HEADER] <;> decide)
    exact this

end Bitumen
